import Mathlib

/-!
Verification of the Polymarket Lakers odds scraper (`lakers_odds_scraper.py`).

This file shallowly embeds the scraper's normalization pipeline —
`parse_timestamp`, `extract_samples`, `resample` and the guard structure of
the three output writers — and proves the specification claims about them.

Modelling conventions:
* Python floats are modelled by `PFloat`: an exact rational together with the
  IEEE special values NaN, +inf and -inf.  Rounding of decimal literals and
  overflow to infinity are not modelled (values stay exact rationals); the
  claims under verification do not depend on rounding.
* JSON payloads are modelled by `JVal`; JSON `null` also stands for Python
  `None` (which is what `dict.get` returns for a missing key).
* Code that can raise is threaded through `Except PyErr`; an exception that
  a `try`/`except` in the source catches is handled at the same place.
* Python's `list.sort`/`sorted` is a stable sort.  On keys that are totally
  ordered (no NaN) every stable sort produces the same list, so it is
  modelled by stable insertion sort (`List.insertionSort`).  CPython's
  timsort result on NaN-containing keys is algorithm specific; concrete
  NaN inputs used below were hand-checked to coincide with CPython.
* `datetime.strptime` is modelled for exactly the three fixed format strings
  appearing in the source, following CPython's `_strptime` regular
  expressions (ordered alternations, case-insensitive literals, `\s+` for a
  literal space, full-string match) plus the range validation performed by
  the `datetime` constructor.  Only ASCII digits/whitespace are modelled.
-/

namespace Polymarket

/-- Model of a Python float: exact rational, or one of the special values. -/
inductive PFloat where
  | num (q : ℚ)
  | nan
  | inf
  | ninf
deriving DecidableEq, Repr

/-- Python `math.isnan`. -/
def PFloat.isNan : PFloat → Bool
  | .nan => true
  | _ => false

/-- A float that is neither NaN nor infinite. -/
def PFloat.isFinite : PFloat → Bool
  | .num _ => true
  | _ => false

/-- IEEE `<` on floats: any comparison involving NaN is false. -/
def pfLt : PFloat → PFloat → Bool
  | .num a, .num b => a < b
  | .num _, .inf => true
  | .ninf, .num _ => true
  | .ninf, .inf => true
  | _, _ => false

/-- IEEE `≤` on floats: any comparison involving NaN is false. -/
def pfLe : PFloat → PFloat → Bool
  | .num a, .num b => a ≤ b
  | .num _, .inf => true
  | .ninf, .num _ => true
  | .ninf, .inf => true
  | .inf, .inf => true
  | .ninf, .ninf => true
  | _, _ => false

/-- JSON values; `null` doubles as Python `None`.  A JSON integer token
becomes an arbitrary-precision Python `int` (`JVal.int`), distinct from a
float; Python `bool` is kept separate because `isinstance(True, int)` holds
in Python. -/
inductive JVal where
  | null
  | bool (b : Bool)
  | int (n : ℤ)
  | num (x : PFloat)
  | str (s : String)
  | list (xs : List JVal)
  | obj (fields : List (String × JVal))

/-- Python truthiness of a JSON value (`bool(v)`). -/
def pyTruthy : JVal → Bool
  | .null => false
  | .bool b => b
  | .int n => decide (n ≠ 0)
  | .num (.num q) => decide (q ≠ 0)
  | .num _ => true
  | .str s => !s.isEmpty
  | .list xs => !xs.isEmpty
  | .obj fs => !fs.isEmpty

/-- Python `x or y`: `x` if truthy, else `y`. -/
def pyOr (x y : JVal) : JVal :=
  if pyTruthy x then x else y

/-- `dict.get k` on a JSON object, `None` (= `null`) when absent. -/
def jGet (fields : List (String × JVal)) (k : String) : JVal :=
  match fields.find? (fun p => p.1 == k) with
  | some p => p.2
  | none => .null

/-- Exceptions that the modelled fragment can raise. -/
inductive PyErr where
  | valueError
  | typeError
  | overflowError
  | zeroDivisionError
deriving DecidableEq, Repr

set_option exponentiation.threshold 1100 in
/-- Conversion of a Python `int` to `float` raises `OverflowError` exactly
when the magnitude is at least `2 ^ 1024 - 2 ^ 970`, the smallest integer
that rounds to infinity under round-to-nearest-even. -/
def intOverflows (n : ℤ) : Bool :=
  decide (2 ^ 1024 - 2 ^ 970 ≤ n.natAbs)

/-- The top-level value is not an integer on which `float()` overflows. -/
def intOk (v : JVal) : Bool :=
  match v with
  | .int n => !intOverflows n
  | _ => true

/-! ### Python `float(str)` -/

/-- ASCII whitespace stripped by `float(str)`. -/
def isWs (c : Char) : Bool :=
  c == ' ' || c == '\t' || c == '\n' || c == '\r' || c == '\x0b' || c == '\x0c'

/-- Consume a run of ASCII digits in which single underscores may separate
digits (Python numeric literal grammar); returns the digits (underscores
removed) and the unconsumed rest. -/
def uDigits : List Char → List Char → List Char × List Char
  | acc, [] => (acc, [])
  | acc, c :: rest =>
    if c.isDigit then uDigits (acc ++ [c]) rest
    else if c == '_' ∧ !acc.isEmpty then
      match rest with
      | d :: r2 => if d.isDigit then uDigits (acc ++ [d]) r2 else (acc, c :: rest)
      | [] => (acc, [c])
    else (acc, c :: rest)

/-- Numeric value of a digit string. -/
def digitsVal (ds : List Char) : ℕ :=
  ds.foldl (fun a c => 10 * a + (c.toNat - 48)) 0

/-- Parse the unsigned decimal part of a Python float literal
(`digits [. digits] [(e|E) sign digits]`), requiring full consumption. -/
def parseDecimalQ (cs : List Char) : Option ℚ :=
  let ipr := uDigits [] cs
  let ip := ipr.1
  let fpr : Option (List Char) × List Char :=
    match ipr.2 with
    | '.' :: rest =>
      let r := uDigits [] rest
      (some r.1, r.2)
    | _ => (none, ipr.2)
  let fd := fpr.1.getD []
  if ip.isEmpty ∧ fd.isEmpty then none
  else
    let scaled : ℤ → ℚ := fun ex =>
      let e : ℤ := ex - (fd.length : ℤ)
      let n : ℤ := (digitsVal (ip ++ fd) : ℤ)
      if 0 ≤ e then mkRat (n * ((10 ^ e.toNat : ℕ) : ℤ)) 1
      else mkRat n (10 ^ (-e).toNat)
    match fpr.2 with
    | [] => some (scaled 0)
    | e :: rest =>
      if e == 'e' ∨ e == 'E' then
        let spr : Bool × List Char :=
          match rest with
          | '+' :: r => (false, r)
          | '-' :: r => (true, r)
          | r => (false, r)
        let edr := uDigits [] spr.2
        if edr.1.isEmpty ∨ !edr.2.isEmpty then none
        else
          some (scaled (if spr.1 then -(digitsVal edr.1 : ℤ) else (digitsVal edr.1 : ℤ)))
      else none

/-- Case-insensitive match of the complete remaining input against a keyword. -/
def matchesCI (cs : List Char) (kw : String) : Bool :=
  cs.map Char.toLower == kw.data

/-- Python `float(s)` on a string: strip whitespace, optional sign, then an
`inf`/`infinity`/`nan` keyword or a decimal literal.  `none` models the
`ValueError` raised on anything else. -/
def pyFloatOfString (s : String) : Option PFloat :=
  let cs := (((s.data.dropWhile isWs).reverse.dropWhile isWs).reverse)
  let spr : Bool × List Char :=
    match cs with
    | '+' :: r => (false, r)
    | '-' :: r => (true, r)
    | r => (false, r)
  if matchesCI spr.2 "infinity" ∨ matchesCI spr.2 "inf" then
    some (if spr.1 then .ninf else .inf)
  else if matchesCI spr.2 "nan" then some .nan
  else
    match parseDecimalQ spr.2 with
    | some q => some (.num (if spr.1 then -q else q))
    | none => none

/-- Python `float(v)` on an arbitrary JSON value; a Python `int` too large
for a double raises `OverflowError`. -/
def pyFloat : JVal → Except PyErr PFloat
  | .num x => .ok x
  | .int n => if intOverflows n then .error .overflowError else .ok (.num (n : ℚ))
  | .bool b => .ok (.num (if b then 1 else 0))
  | .str s =>
    match pyFloatOfString s with
    | some x => .ok x
    | none => .error .valueError
  | _ => .error .typeError

/-! ### `datetime.strptime` for the three formats in the source -/

/-- Parsed components of a datetime. -/
structure DT where
  y : ℕ
  mo : ℕ
  d : ℕ
  hh : ℕ
  mi : ℕ
  ss : ℕ
  us : ℕ
deriving DecidableEq, Repr

/-- Value of a two-digit numeral. -/
def d2val (a b : Char) : ℕ :=
  10 * (a.toNat - 48) + (b.toNat - 48)

/-- `%Y`: exactly four digits. -/
def pY4 : List Char → Option (ℕ × List Char)
  | a :: b :: c :: d :: rest =>
    if a.isDigit ∧ b.isDigit ∧ c.isDigit ∧ d.isDigit then
      some (digitsVal [a, b, c, d], rest)
    else none
  | _ => none

/-- `%m`: `1[0-2]|0[1-9]|[1-9]` (CPython alternation order). -/
def pMo : List Char → Option (ℕ × List Char)
  | a :: b :: rest =>
    if a == '1' ∧ b.isDigit ∧ b ≤ '2' then some (d2val a b, rest)
    else if a == '0' ∧ b.isDigit ∧ b ≥ '1' then some (d2val a b, rest)
    else if a.isDigit ∧ a ≥ '1' then some (a.toNat - 48, b :: rest)
    else none
  | [a] => if a.isDigit ∧ a ≥ '1' then some (a.toNat - 48, []) else none
  | [] => none

/-- `%d`: `3[01]|[12]\d|0[1-9]|[1-9]`. -/
def pDay : List Char → Option (ℕ × List Char)
  | a :: b :: rest =>
    if a == '3' ∧ (b == '0' ∨ b == '1') then some (d2val a b, rest)
    else if (a == '1' ∨ a == '2') ∧ b.isDigit then some (d2val a b, rest)
    else if a == '0' ∧ b.isDigit ∧ b ≥ '1' then some (d2val a b, rest)
    else if a.isDigit ∧ a ≥ '1' then some (a.toNat - 48, b :: rest)
    else none
  | [a] => if a.isDigit ∧ a ≥ '1' then some (a.toNat - 48, []) else none
  | [] => none

/-- `%H`: `2[0-3]|[0-1]\d|\d`. -/
def pHr : List Char → Option (ℕ × List Char)
  | a :: b :: rest =>
    if a == '2' ∧ b.isDigit ∧ b ≤ '3' then some (d2val a b, rest)
    else if (a == '0' ∨ a == '1') ∧ b.isDigit then some (d2val a b, rest)
    else if a.isDigit then some (a.toNat - 48, b :: rest)
    else none
  | [a] => if a.isDigit then some (a.toNat - 48, []) else none
  | [] => none

/-- `%M`: `[0-5]\d|\d`. -/
def pMin : List Char → Option (ℕ × List Char)
  | a :: b :: rest =>
    if a.isDigit ∧ a ≤ '5' ∧ b.isDigit then some (d2val a b, rest)
    else if a.isDigit then some (a.toNat - 48, b :: rest)
    else none
  | [a] => if a.isDigit then some (a.toNat - 48, []) else none
  | [] => none

/-- `%S`: `6[0-1]|[0-5]\d|\d` (leap seconds match the pattern but are then
rejected by the `datetime` constructor). -/
def pSec : List Char → Option (ℕ × List Char)
  | a :: b :: rest =>
    if a == '6' ∧ (b == '0' ∨ b == '1') then some (d2val a b, rest)
    else if a.isDigit ∧ a ≤ '5' ∧ b.isDigit then some (d2val a b, rest)
    else if a.isDigit then some (a.toNat - 48, b :: rest)
    else none
  | [a] => if a.isDigit then some (a.toNat - 48, []) else none
  | [] => none

/-- `%f`: one to six digits; the value is in microseconds (right-padded). -/
def pFrac (cs : List Char) : Option (ℕ × List Char) :=
  let ds := (cs.takeWhile Char.isDigit).take 6
  if ds.isEmpty then none
  else some (digitsVal ds * 10 ^ (6 - ds.length), cs.drop ds.length)

/-- Literal character, case-insensitively (CPython compiles the format regex
with `re.IGNORECASE`). -/
def litCI (c : Char) : List Char → Option (List Char)
  | x :: rest => if x.toLower == c.toLower then some rest else none
  | [] => none

/-- A literal space in a format matches one or more whitespace characters. -/
def ws1 : List Char → Option (List Char)
  | c :: rest => if isWs c then some (rest.dropWhile isWs) else none
  | [] => none

/-- Run `"%Y-%m-%dT%H:%M:%S.%fZ"` against the input. -/
def runFmtFrac (cs : List Char) : Option DT := do
  let (y, cs) ← pY4 cs
  let cs ← litCI '-' cs
  let (mo, cs) ← pMo cs
  let cs ← litCI '-' cs
  let (d, cs) ← pDay cs
  let cs ← litCI 'T' cs
  let (hh, cs) ← pHr cs
  let cs ← litCI ':' cs
  let (mi, cs) ← pMin cs
  let cs ← litCI ':' cs
  let (ss, cs) ← pSec cs
  let cs ← litCI '.' cs
  let (us, cs) ← pFrac cs
  let cs ← litCI 'Z' cs
  match cs with
  | [] => some ⟨y, mo, d, hh, mi, ss, us⟩
  | _ => none

/-- Run `"%Y-%m-%dT%H:%M:%SZ"` against the input. -/
def runFmtZ (cs : List Char) : Option DT := do
  let (y, cs) ← pY4 cs
  let cs ← litCI '-' cs
  let (mo, cs) ← pMo cs
  let cs ← litCI '-' cs
  let (d, cs) ← pDay cs
  let cs ← litCI 'T' cs
  let (hh, cs) ← pHr cs
  let cs ← litCI ':' cs
  let (mi, cs) ← pMin cs
  let cs ← litCI ':' cs
  let (ss, cs) ← pSec cs
  let cs ← litCI 'Z' cs
  match cs with
  | [] => some ⟨y, mo, d, hh, mi, ss, 0⟩
  | _ => none

/-- Run `"%Y-%m-%d %H:%M:%S"` against the input. -/
def runFmtSpace (cs : List Char) : Option DT := do
  let (y, cs) ← pY4 cs
  let cs ← litCI '-' cs
  let (mo, cs) ← pMo cs
  let cs ← litCI '-' cs
  let (d, cs) ← pDay cs
  let cs ← ws1 cs
  let (hh, cs) ← pHr cs
  let cs ← litCI ':' cs
  let (mi, cs) ← pMin cs
  let cs ← litCI ':' cs
  let (ss, cs) ← pSec cs
  match cs with
  | [] => some ⟨y, mo, d, hh, mi, ss, 0⟩
  | _ => none

/-- Gregorian leap year. -/
def isLeap (y : ℕ) : Bool :=
  y % 4 == 0 ∧ (y % 100 != 0 ∨ y % 400 == 0)

/-- Length of a month. -/
def daysInMonth (y mo : ℕ) : ℕ :=
  if mo = 2 then (if isLeap y then 29 else 28)
  else if mo = 4 ∨ mo = 6 ∨ mo = 9 ∨ mo = 11 then 30
  else 31

/-- Days in the months strictly before month `mo` of a common year. -/
def daysBeforeMonth (mo : ℕ) : ℕ :=
  match mo with
  | 1 => 0
  | 2 => 31
  | 3 => 59
  | 4 => 90
  | 5 => 120
  | 6 => 151
  | 7 => 181
  | 8 => 212
  | 9 => 243
  | 10 => 273
  | 11 => 304
  | _ => 334

/-- Proleptic Gregorian ordinal (`datetime.toordinal`; 0001-01-01 is day 1). -/
def toOrdinal (y mo d : ℕ) : ℕ :=
  365 * (y - 1) + (y - 1) / 4 - (y - 1) / 100 + (y - 1) / 400 +
    daysBeforeMonth mo + (if 2 < mo ∧ isLeap y then 1 else 0) + d

/-- Validation performed by the `datetime` constructor on strptime output. -/
def dtValid (t : DT) : Bool :=
  1 ≤ t.y ∧ t.y ≤ 9999 ∧ 1 ≤ t.mo ∧ t.mo ≤ 12 ∧ 1 ≤ t.d ∧
    t.d ≤ daysInMonth t.y t.mo ∧ t.hh ≤ 23 ∧ t.mi ≤ 59 ∧ t.ss ≤ 59 ∧
    t.us ≤ 999999

/-- UTC epoch seconds of a datetime (`.replace(tzinfo=utc).timestamp()`). -/
def epochOf (t : DT) : ℚ :=
  let secs : ℤ :=
    ((toOrdinal t.y t.mo t.d : ℤ) - 719163) * 86400 + t.hh * 3600 + t.mi * 60 + t.ss
  mkRat (secs * 1000000 + (t.us : ℤ)) 1000000

/-- One `datetime.strptime` attempt: `none` models the `ValueError` raised on
a non-matching string or rejected field values. -/
def strptimeEpoch (run : List Char → Option DT) (s : String) : Option ℚ :=
  match run s.data with
  | some t => if dtValid t then some (epochOf t) else none
  | none => none

/-- The ordered format attempts in `parse_timestamp`; first success wins. -/
def tryFormats (s : String) : Option ℚ :=
  (strptimeEpoch runFmtFrac s).orElse fun _ =>
    (strptimeEpoch runFmtZ s).orElse fun _ =>
      strptimeEpoch runFmtSpace s

/-- `parse_timestamp` from the source: `None` → no value; numeric (Python
`bool` included) and not NaN → the value as a float, where `float(value)`
on an overlarge `int` raises `OverflowError` out of the `isinstance` guard;
a string is first tried as a float literal (`except ValueError` falls
through), then against the three datetime formats; anything else yields no
value. -/
def parse_timestamp (v : JVal) : Except PyErr (Option PFloat) :=
  match v with
  | .null => .ok none
  | .bool b => .ok (some (.num (if b then 1 else 0)))
  | .int n =>
    if intOverflows n then .error .overflowError else .ok (some (.num (n : ℚ)))
  | .num x => if x.isNan then .ok none else .ok (some x)
  | .str s =>
    match pyFloat (.str s) with
    | .ok x => .ok (some x)
    | .error .valueError =>
      match tryFormats s with
      | some q => .ok (some (.num q))
      | none => .ok none
    | .error e => .error e
  | .list _ => .ok none
  | .obj _ => .ok none


/-! ### Sample extraction -/

/-- Timestamp parsing as worded by the spec: no value when absent, numeric
non-NaN values verbatim, numeric strings as their value, otherwise the first
matching datetime pattern interpreted as UTC, else no value.  Never raises. -/
def parseTimestampSpec (v : JVal) : Option PFloat :=
  match v with
  | .null => none
  | .bool b => some (.num (if b then 1 else 0))
  | .int n => some (.num (n : ℚ))
  | .num x => if x.isNan then none else some x
  | .str s =>
    match pyFloatOfString s with
    | some x => some x
    | none => (tryFormats s).map .num
  | _ => none

/-- A (timestamp, price) observation, both Python floats. -/
structure PriceSample where
  timestamp : PFloat
  price : PFloat
deriving DecidableEq, Repr

/-- The timestamp field lookup in `extract_samples`:
`item.get("timestamp") or item.get("time") or item.get("createdAt") or
item.get("blockTimestamp")`. -/
def tsValueOf (fields : List (String × JVal)) : JVal :=
  pyOr (jGet fields "timestamp")
    (pyOr (jGet fields "time")
      (pyOr (jGet fields "createdAt") (jGet fields "blockTimestamp")))

/-- The price field lookup in `extract_samples`:
`item.get("price") or item.get("probability") or item.get("p") or
item.get("value")`. -/
def priceValueOf (fields : List (String × JVal)) : JVal :=
  pyOr (jGet fields "price")
    (pyOr (jGet fields "probability")
      (pyOr (jGet fields "p") (jGet fields "value")))

/-- `data = payload.get("data") if isinstance(payload, dict) else payload`. -/
def dataOf (payload : JVal) : JVal :=
  match payload with
  | .obj fields => jGet fields "data"
  | v => v

/-- The record's probed timestamp and price values are not integers on which
`float()` overflows; on any other record `extract_samples` cannot raise. -/
def recordNoOverflow (item : JVal) : Bool :=
  match item with
  | .obj fields => intOk (tsValueOf fields) && intOk (priceValueOf fields)
  | _ => true

/-- No record of the payload's data list carries an overflowing integer in a
probed timestamp or price position. -/
def payloadNoOverflow (payload : JVal) : Bool :=
  match dataOf payload with
  | .list data => data.all recordNoOverflow
  | _ => true

/-- Processing of one record of the history payload: skip non-mappings,
resolve and parse the timestamp, resolve the price, skip on `None`, convert
the price with `float(...)` where `TypeError`/`ValueError` mean skip. -/
def recordToSample (item : JVal) : Option PriceSample :=
  match item with
  | .obj fields =>
    match parseTimestampSpec (tsValueOf fields) with
    | some t =>
      match priceValueOf fields with
      | .null => none
      | p =>
        match pyFloat p with
        | .ok pv => some ⟨t, pv⟩
        | .error _ => none
    | none => none
  | _ => none

/-- Comparator used by `samples.sort(key=lambda s: s.timestamp)`: in a stable
sort an element `s` stays before `t` exactly when `t.timestamp` is not
strictly below `s.timestamp`. -/
def tsKeyLe (s t : PriceSample) : Prop :=
  pfLt t.timestamp s.timestamp = false

instance : DecidableRel tsKeyLe := fun s t =>
  inferInstanceAs (Decidable (_ = false))

/-- The stable sort by timestamp at the end of `extract_samples`. -/
def sortSamples (l : List PriceSample) : List PriceSample :=
  List.insertionSort tsKeyLe l

/-- The body of the record loop of `extract_samples`: skip non-mappings,
resolve and parse the timestamp, resolve the price, skip when either is
`None`, convert the price with `float(...)` where a `TypeError` or
`ValueError` means skip (any other exception would propagate). -/
def extractStep (acc : List PriceSample) (item : JVal) : Except PyErr (List PriceSample) :=
  match item with
  | .obj fields =>
    match parse_timestamp (tsValueOf fields) with
    | .ok ts =>
      let price := priceValueOf fields
      match ts, price with
      | none, _ => .ok acc
      | some _, .null => .ok acc
      | some t, p =>
        match pyFloat p with
        | .ok pv => .ok (acc ++ [PriceSample.mk t pv])
        | .error .typeError => .ok acc
        | .error .valueError => .ok acc
        | .error e => .error e
    | .error e => .error e
  | _ => .ok acc

/-- `extract_samples` from the source.  The record loop is a fold whose body
can in principle propagate an uncaught exception, hence the `Except`. -/
def extract_samples (payload : JVal) : Except PyErr (List PriceSample) :=
  match dataOf payload with
  | .list data => do
    let samples ← data.foldlM extractStep []
    .ok (sortSamples samples)
  | _ => .ok []

/-! ### Resampling -/

/-- `int(q)`: truncation toward zero. -/
def ratTrunc (q : ℚ) : ℤ :=
  if q < 0 then -⌊-q⌋ else ⌊q⌋

/-- `int(ts // interval) * interval`: float floor division, conversion to
`int`, scaling back.  For a rational `n/d`, `floor((n/d) / i)` equals
`Int.fdiv n (d * i)` (floor division; see `bkOf_eq_bkSpec`), which is how it
is computed here.  Raises `ZeroDivisionError` on interval 0 and `ValueError`
from `int(nan)` otherwise (for an infinite timestamp, `±inf // interval` is
already NaN). -/
def bucketKey (ts : PFloat) (i : ℤ) : Except PyErr ℤ :=
  if i = 0 then .error .zeroDivisionError
  else
    match ts with
    | .num q => .ok (q.num.fdiv ((q.den : ℤ) * i) * i)
    | _ => .error .valueError

/-- Pure bucket key of a sample with a finite timestamp (junk elsewhere). -/
def bkOf (i : ℤ) (s : PriceSample) : ℤ :=
  match s.timestamp with
  | .num q => q.num.fdiv ((q.den : ℤ) * i) * i
  | _ => 0

/-- Insertion-ordered dictionary update, as for a CPython `dict`. -/
def upsertBucket : List (ℤ × PriceSample) → ℤ → PriceSample → List (ℤ × PriceSample)
  | [], k, v => [(k, v)]
  | (k', v') :: rest, k, v =>
    if k' = k then (k, v) :: rest else (k', v') :: upsertBucket rest k v

/-- CPython `dict` lookup on the insertion-ordered association list. -/
def lookupKey : List (ℤ × PriceSample) → ℤ → Option PriceSample
  | [], _ => none
  | (k', v) :: rest, k => if k' = k then some v else lookupKey rest k

/-- `resample` from the source: early return on an empty list, a dict fold
keyed by bucket, then one output sample per sorted bucket key. -/
def resample (samples : List PriceSample) (i : ℤ) : Except PyErr (List PriceSample) :=
  match samples with
  | [] => .ok []
  | _ => do
    let d ← samples.foldlM
      (fun d s => (bucketKey s.timestamp i).map (fun k => upsertBucket d k s)) []
    .ok ((List.insertionSort (· ≤ ·) (d.map (fun p => p.1))).filterMap
      (fun k => (lookupKey d k).map (fun s => PriceSample.mk (.num (k : ℚ)) s.price)))

/-! ### Output writers (guard structure) -/

/-- Whether a writer call touched the file system, and with what content. -/
inductive WriteOutcome (α : Type) where
  | noWrite
  | wrote (content : α)
deriving DecidableEq, Repr

/-- One CSV row; the ISO column and the decimal formatting of the price are
elided (no claim concerns the rendered text).  Timestamps outside the range
supported by `datetime.fromtimestamp` are likewise not modelled. -/
inductive CsvRow where
  | header
  | row (ts : ℤ) (price : PFloat)
deriving DecidableEq, Repr

/-- `int(float)`; raises on NaN and infinities. -/
def pyIntOfFloat : PFloat → Except PyErr ℤ
  | .num q => .ok (ratTrunc q)
  | .nan => .error .valueError
  | _ => .error .overflowError

/-- `write_csv`: no emptiness guard — the header row is always written. -/
def write_csv (samples : List PriceSample) : Except PyErr (WriteOutcome (List CsvRow)) := do
  let rows ← samples.mapM (fun s =>
    (pyIntOfFloat s.timestamp).map (fun n => CsvRow.row n s.price))
  .ok (.wrote (CsvRow.header :: rows))

/-- `write_svg`: returns before any file operation when `samples` is empty;
the rendered markup is elided (no claim concerns it). -/
def write_svg (samples : List PriceSample) (title : String) : WriteOutcome Unit :=
  match samples, title with
  | [], _ => .noWrite
  | _, _ => .wrote ()

/-- `write_html`: returns before any file operation when `samples` is empty;
the rendered markup is elided (no claim concerns it). -/
def write_html (samples : List PriceSample) (title : String) : WriteOutcome Unit :=
  match samples, title with
  | [], _ => .noWrite
  | _, _ => .wrote ()


/-! ### Spec-side definitions used for refinement comparisons -/

/-- Propositional decidable equality for `Except`, used to `decide` concrete
evaluations of the exception-threaded functions. -/
instance {e a : Type} [DecidableEq e] [DecidableEq a] : DecidableEq (Except e a)
  | .ok x, .ok y =>
    if h : x = y then .isTrue (by rw [h])
    else .isFalse (by intro hh; exact h (Except.ok.inj hh))
  | .error x, .error y =>
    if h : x = y then .isTrue (by rw [h])
    else .isFalse (by intro hh; exact h (Except.error.inj hh))
  | .ok _, .error _ => .isFalse (by intro hh; exact Except.noConfusion hh)
  | .error _, .ok _ => .isFalse (by intro hh; exact Except.noConfusion hh)

/-- The result shape of `resample` with the implementation's bucket keys
(`bkOf`); an intermediate between the code and `resampleSpec`. -/
def resampleBk (samples : List PriceSample) (i : ℤ) : List PriceSample :=
  (List.insertionSort (· ≤ ·) ((samples.map (bkOf i)).dedup)).filterMap
    (fun k => ((samples.filter (fun s => bkOf i s = k)).getLast?).map
      (fun s => PriceSample.mk (.num (k : ℚ)) s.price))

/-- Bucket key of a sample as worded by the spec:
`floor(timestamp / interval) * interval`. -/
def bkSpec (i : ℤ) (s : PriceSample) : ℤ :=
  match s.timestamp with
  | .num q => ⌊q / (i : ℚ)⌋ * i
  | _ => 0

/-- Resampling as worded by the spec: one sample per non-empty bucket, the
bucket key is `floor(timestamp / interval) * interval`, the output timestamp
is the bucket start, the price is that of the last input sample in the
bucket, output ascending by bucket key. -/
def resampleSpec (samples : List PriceSample) (i : ℤ) : List PriceSample :=
  (List.insertionSort (· ≤ ·) ((samples.map (bkSpec i)).dedup)).filterMap
    (fun k => ((samples.filter (fun s => bkSpec i s = k)).getLast?).map
      (fun s => PriceSample.mk (.num (k : ℚ)) s.price))

/-- Field lookup as the claims word it: the value of the first candidate key
present in the record, regardless of truthiness. -/
def firstPresentVal (fields : List (String × JVal)) (keys : List String) : Option JVal :=
  keys.findSome? (fun k => (fields.find? (fun p => p.1 == k)).map (fun p => p.2))

/-- Field lookup as the `or`-chain actually behaves: the value of the first
candidate key whose value is truthy; if none is truthy, the lookup result of
the final candidate key (possibly `null`). -/
def firstTruthyOrLast (fields : List (String × JVal)) : List String → JVal
  | [] => .null
  | [k] => jGet fields k
  | k :: ks => if pyTruthy (jGet fields k) then jGet fields k else firstTruthyOrLast fields ks

/-- The candidate timestamp keys, in probe order. -/
def tsKeys : List String :=
  ["timestamp", "time", "createdAt", "blockTimestamp"]

/-- The candidate price keys, in probe order. -/
def priceKeys : List String :=
  ["price", "probability", "p", "value"]

/-- Timestamps of a sample list are non-decreasing (under the real order on
floats, in which NaN is incomparable). -/
def tsSorted (l : List PriceSample) : Prop :=
  List.Chain' (fun s t => pfLe s.timestamp t.timestamp = true) l

/-- Executable check of `tsSorted`. -/
def tsSortedB : List PriceSample → Bool
  | [] => true
  | [_] => true
  | s :: t :: rest => pfLe s.timestamp t.timestamp && tsSortedB (t :: rest)

instance (l : List PriceSample) : Decidable (tsSorted l) :=
  decidable_of_iff (tsSortedB l = true) (by
    induction l with
    | nil => simp [tsSortedB, tsSorted]
    | cons s rest ih =>
      cases rest with
      | nil => simp [tsSortedB, tsSorted]
      | cons t rest2 =>
        simp only [tsSortedB, Bool.and_eq_true, tsSorted, List.chain'_cons] at ih ⊢
        exact and_congr Iff.rfl ih)

/-- Timestamps of a sample list are strictly increasing. -/
def tsStrictSorted (l : List PriceSample) : Prop :=
  List.Chain' (fun s t => pfLt s.timestamp t.timestamp = true) l

/-- Executable check of `tsStrictSorted`. -/
def tsStrictSortedB : List PriceSample → Bool
  | [] => true
  | [_] => true
  | s :: t :: rest => pfLt s.timestamp t.timestamp && tsStrictSortedB (t :: rest)

instance (l : List PriceSample) : Decidable (tsStrictSorted l) :=
  decidable_of_iff (tsStrictSortedB l = true) (by
    induction l with
    | nil => simp [tsStrictSortedB, tsStrictSorted]
    | cons s rest ih =>
      cases rest with
      | nil => simp [tsStrictSortedB, tsStrictSorted]
      | cons t rest2 =>
        simp only [tsStrictSortedB, Bool.and_eq_true, tsStrictSorted,
          List.chain'_cons] at ih ⊢
        exact and_congr Iff.rfl ih)

/-- The exception-free result of `extract_samples`. -/
def extractPure (payload : JVal) : List PriceSample :=
  match dataOf payload with
  | .list data => sortSamples (data.filterMap recordToSample)
  | _ => []

/-! ### Concrete payloads used by witnesses and counterexamples -/

/-- The mixed valid/invalid payload from the spec's extraction example. -/
def examplePayload : JVal :=
  .obj [("data", .list
    [ .obj [("timestamp", .num (.num 10)), ("price", .str "0.4")]
    , .obj [("timestamp", .num (.num 5)), ("price", .num (.num (mkRat 3 5)))]
    , .obj [("timestamp", .null), ("price", .num (.num (mkRat 1 5)))] ])]

/-- The record list of `examplePayload`. -/
def exampleData : List JVal :=
  [ .obj [("timestamp", .num (.num 10)), ("price", .str "0.4")]
  , .obj [("timestamp", .num (.num 5)), ("price", .num (.num (mkRat 3 5)))]
  , .obj [("timestamp", .null), ("price", .num (.num (mkRat 1 5)))] ]

/-- The samples of the resampling example from the repository's test suite:
`t = 0, 5, 11` with prices `0.1, 0.2, 0.3`. -/
def resampleExample : List PriceSample :=
  [ ⟨.num 0, .num (mkRat 1 10)⟩, ⟨.num 5, .num (mkRat 2 10)⟩, ⟨.num 11, .num (mkRat 3 10)⟩ ]

/-- A payload whose first record has the string `"nan"` as timestamp; the
records arrive in the order NaN, 10, 5 (CPython's sort leaves this payload
in the order NaN, 5, 10, as does the model). -/
def nanPayloadC6 : JVal :=
  .list
    [ .obj [("timestamp", .str "nan"), ("price", .num (.num 1))]
    , .obj [("timestamp", .num (.num 10)), ("price", .num (.num 1))]
    , .obj [("timestamp", .num (.num 5)), ("price", .num (.num 1))] ]

/-- A NaN payload keyed by the `time` field, records in order NaN, 20, 7. -/
def nanPayloadC2 : JVal :=
  .obj [("data", .list
    [ .obj [("time", .str "nan"), ("price", .num (.num (mkRat 1 2)))]
    , .obj [("time", .num (.num 20)), ("price", .num (.num (mkRat 1 2)))]
    , .obj [("time", .num (.num 7)), ("price", .num (.num (mkRat 1 2)))] ])]

/-- A NaN payload with records in order NaN, 3, 1. -/
def nanPayloadC10 : JVal :=
  .list
    [ .obj [("timestamp", .str "nan"), ("price", .num (.num 1))]
    , .obj [("timestamp", .num (.num 3)), ("price", .num (.num 1))]
    , .obj [("timestamp", .num (.num 1)), ("price", .num (.num 1))] ]

/-- A record whose `timestamp` key holds 0 (falsy) while `time` holds 5. -/
def fieldsC3 : List (String × JVal) :=
  [("timestamp", .num (.num 0)), ("time", .num (.num 5)), ("price", .num (.num 1))]


/-- The pure dictionary fold performed by `resample`, defined when every
bucket key computation succeeds. -/
def buildBuckets (i : ℤ) (samples : List PriceSample) : List (ℤ × PriceSample) :=
  samples.foldl (fun d s => upsertBucket d (bkOf i s) s) []

/-- The last input sample whose bucket key is `k`. -/
def lastInBucket (i : ℤ) (samples : List PriceSample) (k : ℤ) : Option PriceSample :=
  (samples.filter (fun s => bkOf i s = k)).getLast?

/-! ### Order facts about `PFloat` -/

theorem pfLt_irrefl (a : PFloat) : pfLt a a = false := by
  cases a <;> simp [pfLt]

theorem pfLe_of_lt {a b : PFloat} (h : pfLt a b = true) : pfLe a b = true := by
  cases a <;> cases b <;> simp_all [pfLt, pfLe] <;> exact le_of_lt h

theorem pfLe_of_not_lt {a b : PFloat} (ha : a.isNan = false) (hb : b.isNan = false)
    (h : pfLt b a = false) : pfLe a b = true := by
  cases a <;> cases b <;> simp_all [pfLt, pfLe, PFloat.isNan]

theorem pfLe_trans {a b c : PFloat} (h1 : pfLe a b = true) (h2 : pfLe b c = true) :
    pfLe a c = true := by
  cases a <;> cases b <;> cases c <;> simp_all [pfLe]
  exact le_trans h1 h2

theorem ne_of_pfLt {a b : PFloat} (h : pfLt a b = true) : a ≠ b := by
  intro hh
  rw [hh, pfLt_irrefl] at h
  exact Bool.false_ne_true h

/-! ### The timestamp parser against its specification -/

theorem parse_timestamp_eq_spec (v : JVal) (hv : intOk v = true) :
    parse_timestamp v = .ok (parseTimestampSpec v) := by
  cases v with
  | str s =>
    simp only [parse_timestamp, parseTimestampSpec, pyFloat]
    cases h : pyFloatOfString s with
    | some x => rfl
    | none =>
      cases h2 : tryFormats s <;> rfl
  | num x => cases x <;> rfl
  | int n =>
    have hI : intOverflows n = false := by
      cases hI2 : intOverflows n with
      | true => rw [intOk, hI2] at hv; simp at hv
      | false => rfl
    simp [parse_timestamp, parseTimestampSpec, hI]
  | _ => rfl

theorem parse_timestamp_int_overflow {n : ℤ} (h : intOverflows n = true) :
    parse_timestamp (.int n) = .error .overflowError := by
  simp [parse_timestamp, h]

theorem parse_timestamp_ok_spec {v : JVal} {r : Option PFloat}
    (h : parse_timestamp v = .ok r) : r = parseTimestampSpec v := by
  by_cases hv : intOk v = true
  · rw [parse_timestamp_eq_spec v hv] at h
    exact (Except.ok.inj h).symm
  · cases v with
    | int n =>
      have hI : intOverflows n = true := by
        cases hI2 : intOverflows n with
        | true => rfl
        | false => exact absurd (by simp [intOk, hI2]) hv
      rw [parse_timestamp_int_overflow hI] at h
      exact Except.noConfusion h
    | null => simp [intOk] at hv
    | bool b => simp [intOk] at hv
    | num x => simp [intOk] at hv
    | str s => simp [intOk] at hv
    | list xs => simp [intOk] at hv
    | obj fs => simp [intOk] at hv

theorem pyFloat_err {v : JVal} {e : PyErr} (hv : intOk v = true)
    (h : pyFloat v = .error e) : e = .typeError ∨ e = .valueError := by
  cases v with
  | int n =>
    have hI : intOverflows n = false := by
      cases hI2 : intOverflows n with
      | true => rw [intOk, hI2] at hv; simp at hv
      | false => rfl
    simp [pyFloat, hI] at h
  | str s =>
    simp only [pyFloat] at h
    cases hs : pyFloatOfString s <;> rw [hs] at h
    · exact Or.inr (Except.error.inj h).symm
    · exact Except.noConfusion h
  | null => exact Or.inl (Except.error.inj h).symm
  | bool b => exact Except.noConfusion h
  | num x => exact Except.noConfusion h
  | list xs => exact Or.inl (Except.error.inj h).symm
  | obj fs => exact Or.inl (Except.error.inj h).symm

/-! ### Structure of `extract_samples` -/

theorem extractStep_eq (acc : List PriceSample) (item : JVal)
    (hitem : recordNoOverflow item = true) :
    extractStep acc item = .ok (acc ++ (recordToSample item).toList) := by
  cases item <;> simp [extractStep, recordToSample]
  case obj fields =>
    rw [recordNoOverflow, Bool.and_eq_true] at hitem
    rw [parse_timestamp_eq_spec _ hitem.1]
    cases parseTimestampSpec (tsValueOf fields) with
    | none => simp
    | some t =>
      simp only
      have hpok := hitem.2
      cases hp : priceValueOf fields with
      | null => simp
      | _ =>
        simp only
        rw [hp] at hpok
        cases hf : pyFloat (priceValueOf fields) with
        | ok pv => rw [hp] at hf; simp [hf]
        | error e =>
          rw [hp] at hf
          rcases pyFloat_err hpok hf with rfl | rfl <;> simp [hf]

theorem extractStep_ok {acc : List PriceSample} {item : JVal} {l : List PriceSample}
    (h : extractStep acc item = .ok l) : l = acc ++ (recordToSample item).toList := by
  cases item with
  | obj fields =>
    simp only [extractStep] at h
    cases hp : parse_timestamp (tsValueOf fields) with
    | error e =>
      rw [hp] at h
      exact Except.noConfusion h
    | ok ts =>
      rw [hp] at h
      have hts := parse_timestamp_ok_spec hp
      simp only [recordToSample, ← hts]
      cases ts with
      | none =>
        simp only at h
        simp [← Except.ok.inj h]
      | some t =>
        cases hpv : priceValueOf fields with
        | null =>
          rw [hpv] at h
          simp only at h
          simp [← Except.ok.inj h]
        | _ =>
          rw [hpv] at h
          simp only at h
          cases hf : pyFloat (priceValueOf fields) with
          | ok pv =>
            rw [hpv] at hf
            rw [hf] at h
            simp only at h
            simp [hf, ← Except.ok.inj h]
          | error e =>
            rw [hpv] at hf
            rw [hf] at h
            cases e
            case typeError => simp only at h; simp [hf, ← Except.ok.inj h]
            case valueError => simp only at h; simp [hf, ← Except.ok.inj h]
            case overflowError => exact Except.noConfusion h
            case zeroDivisionError => exact Except.noConfusion h
  | _ =>
    simp only [extractStep] at h
    simp [recordToSample, ← Except.ok.inj h]

theorem foldlM_extractStep :
    ∀ (data : List JVal), (∀ item ∈ data, recordNoOverflow item = true) →
    ∀ acc, data.foldlM extractStep acc = .ok (acc ++ data.filterMap recordToSample) := by
  intro data
  induction data with
  | nil =>
    intro _ acc
    simp only [List.foldlM_nil, List.filterMap_nil, List.append_nil]
    rfl
  | cons item rest ih =>
    intro hd acc
    rw [List.foldlM_cons, extractStep_eq acc item (hd item (by simp))]
    show Except.bind _ _ = _
    rw [Except.bind]
    rw [ih (fun t ht => hd t (by simp [ht]))]
    cases h : recordToSample item <;> simp [h, List.filterMap_cons]

theorem foldlM_extractStep_ok :
    ∀ (data : List JVal) (acc l : List PriceSample),
      data.foldlM extractStep acc = .ok l → l = acc ++ data.filterMap recordToSample := by
  intro data
  induction data with
  | nil =>
    intro acc l h
    rw [List.foldlM_nil] at h
    replace h : (Except.ok acc : Except PyErr (List PriceSample)) = .ok l := h
    simp [← Except.ok.inj h]
  | cons item rest ih =>
    intro acc l h
    rw [List.foldlM_cons] at h
    cases hstep : extractStep acc item with
    | error e =>
      rw [hstep] at h
      replace h : (Except.error e : Except PyErr (List PriceSample)) = .ok l := h
      exact Except.noConfusion h
    | ok acc2 =>
      rw [hstep] at h
      replace h : rest.foldlM extractStep acc2 = .ok l := h
      have h2 := ih acc2 l h
      rw [extractStep_ok hstep] at h2
      rw [h2, List.filterMap_cons]
      cases recordToSample item <;> simp

theorem extract_samples_eq (payload : JVal) (hovf : payloadNoOverflow payload = true) :
    extract_samples payload = .ok (extractPure payload) := by
  unfold payloadNoOverflow at hovf
  unfold extract_samples extractPure
  cases hd : dataOf payload with
  | list data =>
    rw [hd] at hovf
    replace hovf : data.all recordNoOverflow = true := hovf
    have hitems : ∀ item ∈ data, recordNoOverflow item = true := by
      intro item hm
      exact List.all_eq_true.mp hovf item hm
    simp only
    rw [show (do
        let samples ← data.foldlM extractStep []
        .ok (sortSamples samples) : Except PyErr (List PriceSample)) =
      Except.bind (data.foldlM extractStep []) (fun samples => .ok (sortSamples samples)) from rfl]
    rw [foldlM_extractStep data hitems [], Except.bind]
    simp
  | _ => rfl

theorem extract_samples_ok (payload : JVal) (out : List PriceSample)
    (h : extract_samples payload = .ok out) : out = extractPure payload := by
  unfold extract_samples at h
  unfold extractPure
  cases hd : dataOf payload
  case list data =>
    rw [hd] at h
    replace h : Except.bind (data.foldlM extractStep [])
        (fun samples => .ok (sortSamples samples)) = .ok out := h
    cases hf : data.foldlM extractStep [] with
    | error e =>
      rw [hf] at h
      exact Except.noConfusion h
    | ok samples =>
      rw [hf, Except.bind] at h
      have hsam := foldlM_extractStep_ok data [] samples hf
      rw [List.nil_append] at hsam
      rw [← Except.ok.inj h, hsam]
  all_goals (rw [hd] at h; exact (Except.ok.inj h).symm)

/-! ### Sortedness and stability of the timestamp sort -/

theorem pairwise_orderedInsert_pfLe (a : PriceSample) :
    ∀ l : List PriceSample, a.timestamp.isNan = false →
      (∀ s ∈ l, s.timestamp.isNan = false) →
      List.Pairwise (fun s t => pfLe s.timestamp t.timestamp = true) l →
      List.Pairwise (fun s t => pfLe s.timestamp t.timestamp = true)
        (List.orderedInsert tsKeyLe a l)
  | [], _, _, _ => by simp
  | b :: l, ha, hl, hp => by
    simp only [List.orderedInsert]
    by_cases h : tsKeyLe a b
    · rw [if_pos h]
      have hab : pfLe a.timestamp b.timestamp = true :=
        pfLe_of_not_lt ha (hl b (by simp)) h
      refine List.Pairwise.cons ?_ hp
      intro x hx
      rcases List.mem_cons.mp hx with rfl | hx
      · exact hab
      · exact pfLe_trans hab ((List.pairwise_cons.mp hp).1 x hx)
    · rw [if_neg h]
      have hba : pfLt b.timestamp a.timestamp = true := by
        simpa [tsKeyLe] using h
      refine List.Pairwise.cons ?_
        (pairwise_orderedInsert_pfLe a l ha (fun s hs => hl s (by simp [hs]))
          (List.pairwise_cons.mp hp).2)
      intro x hx
      rcases (List.mem_orderedInsert tsKeyLe).mp hx with rfl | hx
      · exact pfLe_of_lt hba
      · exact (List.pairwise_cons.mp hp).1 x hx

theorem pairwise_sortSamples (l : List PriceSample)
    (h : ∀ s ∈ l, s.timestamp.isNan = false) :
    List.Pairwise (fun s t => pfLe s.timestamp t.timestamp = true) (sortSamples l) := by
  induction l with
  | nil => simp [sortSamples]
  | cons a l ih =>
    show List.Pairwise _ (List.orderedInsert tsKeyLe a (List.insertionSort tsKeyLe l))
    refine pairwise_orderedInsert_pfLe a _ (h a (by simp)) ?_ (ih (fun s hs => h s (by simp [hs])))
    intro s hs
    exact h s (by simp [(List.mem_insertionSort tsKeyLe).mp hs])

theorem filter_orderedInsert_ts (a : PriceSample) (l : List PriceSample) (t0 : PFloat) :
    (List.orderedInsert tsKeyLe a l).filter (fun s => decide (s.timestamp = t0)) =
      (if a.timestamp = t0 then [a] else []) ++
        l.filter (fun s => decide (s.timestamp = t0)) := by
  rw [List.orderedInsert_eq_take_drop, List.filter_append]
  have hsplit : l.filter (fun s => decide (s.timestamp = t0)) =
      (l.takeWhile fun b => decide ¬tsKeyLe a b).filter (fun s => decide (s.timestamp = t0)) ++
        (l.dropWhile fun b => decide ¬tsKeyLe a b).filter (fun s => decide (s.timestamp = t0)) := by
    conv_lhs => rw [← List.takeWhile_append_dropWhile (fun b => decide ¬tsKeyLe a b) l]
    rw [List.filter_append]
  by_cases h : a.timestamp = t0
  · have htake : (l.takeWhile fun b => decide ¬tsKeyLe a b).filter
        (fun s => decide (s.timestamp = t0)) = [] := by
      rw [List.filter_eq_nil_iff]
      intro b hb
      have hpred := List.mem_takeWhile_imp hb
      have hlt : pfLt b.timestamp a.timestamp = true := by
        simp only [decide_eq_true_eq, tsKeyLe] at hpred
        simpa using hpred
      have : b.timestamp ≠ t0 := by
        rw [← h]
        exact ne_of_pfLt hlt
      simp [this]
    rw [htake, if_pos h, hsplit, htake]
    simp [h]
  · rw [if_neg h, hsplit]
    simp [h]

theorem filter_sortSamples (t0 : PFloat) :
    ∀ l : List PriceSample,
      (sortSamples l).filter (fun s => decide (s.timestamp = t0)) =
        l.filter (fun s => decide (s.timestamp = t0)) := by
  intro l
  induction l with
  | nil => rfl
  | cons a l ih =>
    show (List.orderedInsert tsKeyLe a (List.insertionSort tsKeyLe l)).filter _ = _
    rw [filter_orderedInsert_ts]
    show _ = List.filter _ (a :: l)
    rw [List.filter_cons]
    by_cases h : a.timestamp = t0 <;> simp [h] <;> exact ih

theorem sortSamples_perm (l : List PriceSample) : List.Perm (sortSamples l) l :=
  List.perm_insertionSort tsKeyLe l


/-! ### The bucket dictionary -/

theorem lookupKey_upsertBucket :
    ∀ (d : List (ℤ × PriceSample)) (k : ℤ) (v : PriceSample) (k' : ℤ),
      lookupKey (upsertBucket d k v) k' = if k = k' then some v else lookupKey d k'
  | [], k, v, k' => by simp [upsertBucket, lookupKey]
  | (kp, vp) :: rest, k, v, k' => by
    by_cases h : kp = k
    · subst h
      simp only [upsertBucket, if_pos rfl, lookupKey]
      by_cases h2 : kp = k' <;> simp [h2, lookupKey]
    · simp only [upsertBucket, if_neg h, lookupKey]
      by_cases h2 : kp = k'
      · have : ¬k = k' := fun hh => h (hh ▸ h2)
        simp [h2, this]
      · simp [h2, lookupKey_upsertBucket rest k v k']

theorem mem_keys_upsertBucket :
    ∀ (d : List (ℤ × PriceSample)) (k : ℤ) (v : PriceSample) (k' : ℤ),
      k' ∈ (upsertBucket d k v).map Prod.fst ↔ k' = k ∨ k' ∈ d.map Prod.fst
  | [], k, v, k' => by simp [upsertBucket]
  | (kp, vp) :: rest, k, v, k' => by
    by_cases h : kp = k
    · subst h
      have hu : upsertBucket ((kp, vp) :: rest) kp v = (kp, v) :: rest := by
        simp [upsertBucket]
      rw [hu]
      simp only [List.map_cons, List.mem_cons]
      tauto
    · simp only [upsertBucket, if_neg h, List.map_cons, List.mem_cons,
        mem_keys_upsertBucket rest k v k']
      tauto

theorem nodup_keys_upsertBucket :
    ∀ (d : List (ℤ × PriceSample)) (k : ℤ) (v : PriceSample),
      (d.map Prod.fst).Nodup → ((upsertBucket d k v).map Prod.fst).Nodup
  | [], k, v, _ => by simp [upsertBucket]
  | (kp, vp) :: rest, k, v, h => by
    rw [List.map_cons, List.nodup_cons] at h
    by_cases hk : kp = k
    · subst hk
      simpa [upsertBucket, List.nodup_cons] using h
    · simp only [upsertBucket, if_neg hk, List.map_cons, List.nodup_cons]
      refine ⟨?_, nodup_keys_upsertBucket rest k v h.2⟩
      rw [mem_keys_upsertBucket]
      rintro (rfl | hmem)
      · exact hk rfl
      · exact h.1 hmem

theorem lookupKey_buildBuckets (i : ℤ) (samples : List PriceSample) :
    ∀ k, lookupKey (buildBuckets i samples) k = lastInBucket i samples k := by
  induction samples using List.reverseRecOn with
  | nil => intro k; rfl
  | append_singleton l s ih =>
    intro k
    unfold buildBuckets lastInBucket
    rw [List.foldl_append, List.foldl_cons, List.foldl_nil, lookupKey_upsertBucket,
      List.filter_append]
    by_cases h : bkOf i s = k
    · simp [h, List.getLast?_concat]
    · have hfe : List.filter (fun s => decide (bkOf i s = k)) [s] = [] := by simp [h]
      rw [hfe, List.append_nil, if_neg h]
      exact ih k

theorem mem_keys_buildBuckets (i : ℤ) (samples : List PriceSample) :
    ∀ k, k ∈ (buildBuckets i samples).map Prod.fst ↔ ∃ s ∈ samples, bkOf i s = k := by
  induction samples using List.reverseRecOn with
  | nil => intro k; simp [buildBuckets]
  | append_singleton l s ih =>
    intro k
    unfold buildBuckets
    rw [List.foldl_append, List.foldl_cons, List.foldl_nil, mem_keys_upsertBucket]
    unfold buildBuckets at ih
    rw [ih k]
    simp only [List.mem_append, List.mem_singleton]
    constructor
    · rintro (rfl | ⟨t, ht, rfl⟩)
      · exact ⟨s, Or.inr rfl, rfl⟩
      · exact ⟨t, Or.inl ht, rfl⟩
    · rintro ⟨t, (ht | rfl), rfl⟩
      · exact Or.inr ⟨t, ht, rfl⟩
      · exact Or.inl rfl

theorem nodup_keys_buildBuckets (i : ℤ) (samples : List PriceSample) :
    ((buildBuckets i samples).map Prod.fst).Nodup := by
  induction samples using List.reverseRecOn with
  | nil => simp [buildBuckets]
  | append_singleton l s ih =>
    unfold buildBuckets
    rw [List.foldl_append, List.foldl_cons, List.foldl_nil]
    exact nodup_keys_upsertBucket _ _ _ ih


/-! ### `resample` equals its specification on finite, nonzero-interval input -/

theorem bucketKey_ok (i : ℤ) (hi : i ≠ 0) (s : PriceSample)
    (h : s.timestamp.isFinite = true) :
    bucketKey s.timestamp i = .ok (bkOf i s) := by
  cases hts : s.timestamp with
  | num q => simp [bucketKey, bkOf, hi, hts]
  | _ => rw [hts] at h; simp [PFloat.isFinite] at h

theorem foldlM_resample_ok (i : ℤ) (hi : i ≠ 0) :
    ∀ (samples : List PriceSample), (∀ s ∈ samples, s.timestamp.isFinite = true) →
    ∀ d0 : List (ℤ × PriceSample),
      samples.foldlM (fun d s => (bucketKey s.timestamp i).map (fun k => upsertBucket d k s)) d0 =
        .ok (samples.foldl (fun d s => upsertBucket d (bkOf i s) s) d0) := by
  intro samples
  induction samples with
  | nil =>
    intro _ d0
    simp only [List.foldlM_nil, List.foldl_nil]
    rfl
  | cons s rest ih =>
    intro hfin d0
    rw [List.foldlM_cons, bucketKey_ok i hi s (hfin s (by simp))]
    show Except.bind _ _ = _
    rw [Except.map, Except.bind]
    rw [ih (fun t ht => hfin t (by simp [ht])), List.foldl_cons]

theorem resample_eq_bk (samples : List PriceSample) (i : ℤ) (hi : i ≠ 0)
    (hfin : ∀ s ∈ samples, s.timestamp.isFinite = true) :
    resample samples i = .ok (resampleBk samples i) := by
  cases hs : samples with
  | nil => rfl
  | cons s0 rest =>
    rw [← hs]
    have hne : samples ≠ [] := by rw [hs]; exact List.cons_ne_nil s0 rest
    have hres : resample samples i =
        Except.bind
          (samples.foldlM
            (fun d s => (bucketKey s.timestamp i).map (fun k => upsertBucket d k s)) [])
          (fun d => .ok ((List.insertionSort (· ≤ ·) (d.map (fun p => p.1))).filterMap
            (fun k => (lookupKey d k).map
              (fun s => PriceSample.mk (.num (k : ℚ)) s.price)))) := by
      rw [hs]
      rfl
    rw [hres, foldlM_resample_ok i hi samples hfin [], Except.bind]
    have hkeys : List.insertionSort (· ≤ ·) ((buildBuckets i samples).map Prod.fst) =
        List.insertionSort (· ≤ ·) ((samples.map (bkOf i)).dedup) := by
      haveI : IsAntisymm ℤ (fun x1 x2 : ℤ => x1 ≤ x2) := ⟨fun a b h1 h2 => le_antisymm h1 h2⟩
      haveI : IsTotal ℤ (fun x1 x2 : ℤ => x1 ≤ x2) := ⟨fun a b => le_total a b⟩
      haveI : IsTrans ℤ (fun x1 x2 : ℤ => x1 ≤ x2) := ⟨fun a b c => le_trans⟩
      refine List.eq_of_perm_of_sorted ?_ (List.sorted_insertionSort _ _)
        (List.sorted_insertionSort _ _)
      refine ((List.perm_insertionSort _ _).trans ?_).trans
        (List.perm_insertionSort _ _).symm
      rw [List.perm_ext_iff_of_nodup (nodup_keys_buildBuckets i samples) (List.nodup_dedup _)]
      intro k
      rw [mem_keys_buildBuckets i samples k, List.mem_dedup, List.mem_map]
    show Except.ok (List.filterMap _ (List.insertionSort _ ((buildBuckets i samples).map
      (fun p => p.1)))) = _
    rw [show (fun p : ℤ × PriceSample => p.1) = Prod.fst from rfl, hkeys]
    unfold resampleBk
    refine congrArg Except.ok (List.filterMap_congr ?_)
    intro k _
    rw [show (List.foldl (fun d s => upsertBucket d (bkOf i s) s) [] samples) =
      buildBuckets i samples from rfl, lookupKey_buildBuckets i samples k]
    rfl


/-! ### The implementation bucket key equals the spec floor formula -/

theorem bkOf_eq_bkSpec (i : ℤ) (hi : 0 < i) (s : PriceSample) :
    bkOf i s = bkSpec i s := by
  cases hts : s.timestamp with
  | num q =>
    simp only [bkOf, bkSpec, hts]
    have hb : 0 < (q.den : ℤ) * i :=
      mul_pos (Int.natCast_pos.mpr q.pos) hi
    rw [Int.fdiv_eq_ediv _ hb.le]
    congr 1
    have hden : ((q.den : ℚ)) ≠ 0 := Nat.cast_ne_zero.mpr q.den_nz
    have hiq : ((i : ℚ)) ≠ 0 := Int.cast_ne_zero.mpr (ne_of_gt hi)
    have hnum : (q.num : ℚ) = q * (q.den : ℚ) :=
      (div_eq_iff hden).mp (Rat.num_div_den q)
    have hq : q / (i : ℚ) = (q.num : ℚ) / (((q.den : ℤ) * i : ℤ) : ℚ) := by
      rw [hnum]
      push_cast
      rw [mul_comm ((q.den : ℚ)) ((i : ℚ)), mul_div_mul_right _ _ hden]
    rw [hq]
    have hbt : ((((q.den : ℤ) * i).toNat : ℕ) : ℤ) = (q.den : ℤ) * i :=
      Int.toNat_of_nonneg hb.le
    rw [show ((((q.den : ℤ) * i : ℤ)) : ℚ) = ((((q.den : ℤ) * i).toNat : ℕ) : ℚ) by
      exact_mod_cast congrArg (fun z : ℤ => (z : ℚ)) hbt.symm]
    rw [Rat.floor_intCast_div_natCast, hbt]
  | nan => simp [bkOf, bkSpec, hts]
  | inf => simp [bkOf, bkSpec, hts]
  | ninf => simp [bkOf, bkSpec, hts]

theorem resampleBk_eq_resampleSpec (samples : List PriceSample) (i : ℤ) (hi : 0 < i) :
    resampleBk samples i = resampleSpec samples i := by
  have hfun : bkOf i = bkSpec i := funext (fun s => bkOf_eq_bkSpec i hi s)
  unfold resampleBk resampleSpec
  rw [hfun]

/-! ### Shape of any successful `resample` result -/

theorem foldlM_resample_keys (i : ℤ) :
    ∀ (samples : List PriceSample) (d0 dF : List (ℤ × PriceSample)),
      samples.foldlM
          (fun d s => (bucketKey s.timestamp i).map (fun k => upsertBucket d k s)) d0 =
        .ok dF →
      (∀ k ∈ d0.map Prod.fst, ∃ m : ℤ, k = m * i) →
      (∀ k ∈ dF.map Prod.fst, ∃ m : ℤ, k = m * i) := by
  intro samples
  induction samples with
  | nil =>
    intro d0 dF h h0
    rw [List.foldlM_nil] at h
    replace h : (Except.ok d0 : Except PyErr (List (ℤ × PriceSample))) = .ok dF := h
    rw [← Except.ok.inj h]
    exact h0
  | cons s rest ih =>
    intro d0 dF h h0
    rw [List.foldlM_cons] at h
    cases hk : bucketKey s.timestamp i with
    | error e =>
      rw [hk] at h
      replace h : (Except.error e : Except PyErr (List (ℤ × PriceSample))) = .ok dF := h
      exact Except.noConfusion h
    | ok k0 =>
      rw [hk] at h
      replace h : rest.foldlM
          (fun d s => (bucketKey s.timestamp i).map (fun k => upsertBucket d k s))
          (upsertBucket d0 k0 s) = .ok dF := h
      have hk0 : ∃ m : ℤ, k0 = m * i := by
        unfold bucketKey at hk
        by_cases hi : i = 0
        · rw [if_pos hi] at hk; exact Except.noConfusion hk
        · rw [if_neg hi] at hk
          cases hts : s.timestamp with
          | num q =>
            rw [hts] at hk
            exact ⟨q.num.fdiv ((q.den : ℤ) * i), (Except.ok.inj hk).symm⟩
          | nan => rw [hts] at hk; exact Except.noConfusion hk
          | inf => rw [hts] at hk; exact Except.noConfusion hk
          | ninf => rw [hts] at hk; exact Except.noConfusion hk
      refine ih (upsertBucket d0 k0 s) dF h ?_
      intro k hkmem
      rcases (mem_keys_upsertBucket d0 k0 s k).mp hkmem with rfl | hmem
      · exact hk0
      · exact h0 k hmem

theorem foldlM_resample_nodup (i : ℤ) :
    ∀ (samples : List PriceSample) (d0 dF : List (ℤ × PriceSample)),
      samples.foldlM
          (fun d s => (bucketKey s.timestamp i).map (fun k => upsertBucket d k s)) d0 =
        .ok dF →
      (d0.map Prod.fst).Nodup → (dF.map Prod.fst).Nodup := by
  intro samples
  induction samples with
  | nil =>
    intro d0 dF h h0
    rw [List.foldlM_nil] at h
    replace h : (Except.ok d0 : Except PyErr (List (ℤ × PriceSample))) = .ok dF := h
    rw [← Except.ok.inj h]
    exact h0
  | cons s rest ih =>
    intro d0 dF h h0
    rw [List.foldlM_cons] at h
    cases hk : bucketKey s.timestamp i with
    | error e =>
      rw [hk] at h
      replace h : (Except.error e : Except PyErr (List (ℤ × PriceSample))) = .ok dF := h
      exact Except.noConfusion h
    | ok k0 =>
      rw [hk] at h
      replace h : rest.foldlM
          (fun d s => (bucketKey s.timestamp i).map (fun k => upsertBucket d k s))
          (upsertBucket d0 k0 s) = .ok dF := h
      exact ih (upsertBucket d0 k0 s) dF h (nodup_keys_upsertBucket d0 k0 s h0)

theorem resample_ok_shape (samples : List PriceSample) (i : ℤ) (out : List PriceSample)
    (h : resample samples i = .ok out) :
    (∀ x ∈ out, ∃ m : ℤ, x.timestamp = .num ((m * i : ℤ) : ℚ)) ∧
      List.Pairwise (fun s t => pfLt s.timestamp t.timestamp = true) out := by
  cases hs : samples with
  | nil =>
    rw [hs] at h
    replace h : (Except.ok [] : Except PyErr (List PriceSample)) = .ok out := h
    rw [← Except.ok.inj h]
    exact ⟨by simp, by simp⟩
  | cons s0 rest =>
    rw [hs] at h
    replace h : Except.bind
        ((s0 :: rest).foldlM
          (fun d s => (bucketKey s.timestamp i).map (fun k => upsertBucket d k s)) [])
        (fun d => .ok ((List.insertionSort (· ≤ ·) (d.map (fun p => p.1))).filterMap
          (fun k => (lookupKey d k).map
            (fun s => PriceSample.mk (.num (k : ℚ)) s.price)))) = .ok out := h
    cases hd : (s0 :: rest).foldlM
        (fun d s => (bucketKey s.timestamp i).map (fun k => upsertBucket d k s)) [] with
    | error e => rw [hd] at h; exact Except.noConfusion h
    | ok dF =>
      rw [hd, Except.bind] at h
      have hout := Except.ok.inj h
      have hal : ∀ k ∈ dF.map Prod.fst, ∃ m : ℤ, k = m * i :=
        foldlM_resample_keys i (s0 :: rest) [] dF hd (by simp)
      have hnd : (dF.map Prod.fst).Nodup :=
        foldlM_resample_nodup i (s0 :: rest) [] dF hd (by simp)
      have hKperm : List.Perm
          (List.insertionSort (· ≤ ·) (dF.map (fun p => p.1))) (dF.map Prod.fst) :=
        List.perm_insertionSort _ _
      have hKnd : (List.insertionSort (· ≤ ·) (dF.map (fun p => p.1))).Nodup :=
        hKperm.nodup_iff.mpr hnd
      have hKle : List.Pairwise (fun a b : ℤ => a ≤ b)
          (List.insertionSort (· ≤ ·) (dF.map (fun p => p.1))) := by
        haveI : IsTotal ℤ (fun x1 x2 : ℤ => x1 ≤ x2) := ⟨fun a b => le_total a b⟩
        haveI : IsTrans ℤ (fun x1 x2 : ℤ => x1 ≤ x2) := ⟨fun a b c => le_trans⟩
        exact List.sorted_insertionSort _ _
      have hKlt : List.Pairwise (fun a b : ℤ => a < b)
          (List.insertionSort (· ≤ ·) (dF.map (fun p => p.1))) :=
        (hKle.and hKnd).imp (fun hab => lt_of_le_of_ne hab.1 hab.2)
      constructor
      · intro x hx
        rw [← hout] at hx
        rcases List.mem_filterMap.mp hx with ⟨k, hkK, hfk⟩
        rcases Option.map_eq_some'.mp hfk with ⟨s, _, rfl⟩
        have hkmem : k ∈ dF.map Prod.fst := hKperm.mem_iff.mp hkK
        rcases hal k hkmem with ⟨m, rfl⟩
        exact ⟨m, rfl⟩
      · rw [← hout]
        refine List.Pairwise.filterMap _ ?_ hKlt
        intro a b hab x hx y hy
        rw [Option.mem_def] at hx hy
        rcases Option.map_eq_some'.mp hx with ⟨sa, _, rfl⟩
        rcases Option.map_eq_some'.mp hy with ⟨sb, _, rfl⟩
        show pfLt (.num (a : ℚ)) (.num (b : ℚ)) = true
        simp only [pfLt, decide_eq_true_eq]
        exact_mod_cast hab


/-! ### Idempotence of resampling -/

theorem bkOf_aligned (i : ℤ) (hi : i ≠ 0) (m : ℤ) (x : PriceSample)
    (hx : x.timestamp = .num ((m * i : ℤ) : ℚ)) : bkOf i x = m * i := by
  simp only [bkOf, hx, Rat.num_intCast, Rat.den_intCast]
  rw [show ((1 : ℕ) : ℤ) * i = i by simp, Int.mul_fdiv_cancel _ hi]

theorem filter_bk_eq_singleton (i : ℤ) :
    ∀ out : List PriceSample,
      List.Pairwise (fun s t => bkOf i s ≠ bkOf i t) out →
      ∀ x ∈ out, out.filter (fun s => decide (bkOf i s = bkOf i x)) = [x]
  | [], _, x, hx => absurd hx (List.not_mem_nil x)
  | y :: rest, hp, x, hx => by
    have hy := (List.pairwise_cons.mp hp).1
    have hrest := (List.pairwise_cons.mp hp).2
    rcases List.mem_cons.mp hx with rfl | hxr
    · rw [List.filter_cons, if_pos (by simp)]
      have hnil : rest.filter (fun s => decide (bkOf i s = bkOf i x)) = [] := by
        rw [List.filter_eq_nil_iff]
        intro t ht
        simp only [decide_eq_true_eq]
        exact fun hh => (hy t ht) hh.symm
      rw [hnil]
    · rw [List.filter_cons]
      have hne : ¬(bkOf i y = bkOf i x) := hy x hxr
      simp only [decide_eq_true_eq]
      rw [if_neg hne]
      exact filter_bk_eq_singleton i rest hrest x hxr

theorem resampleBk_shaped_eq (i : ℤ) (hi : i ≠ 0) (out : List PriceSample)
    (hal : ∀ x ∈ out, ∃ m : ℤ, x.timestamp = .num ((m * i : ℤ) : ℚ))
    (hp : List.Pairwise (fun s t => pfLt s.timestamp t.timestamp = true) out) :
    resampleBk out i = out := by
  have hbklt : List.Pairwise (fun s t => bkOf i s < bkOf i t) out := by
    refine hp.imp_of_mem ?_
    intro s t hs ht hlt
    rcases hal s hs with ⟨m, hm⟩
    rcases hal t ht with ⟨m', hm'⟩
    rw [bkOf_aligned i hi m s hm, bkOf_aligned i hi m' t hm']
    rw [hm, hm'] at hlt
    simp only [pfLt, decide_eq_true_eq] at hlt
    exact_mod_cast hlt
  have hbkne : List.Pairwise (fun s t => bkOf i s ≠ bkOf i t) out :=
    hbklt.imp ne_of_lt
  have hmaplt : List.Pairwise (fun a b : ℤ => a < b) (out.map (bkOf i)) :=
    List.pairwise_map.mpr hbklt
  have hmapnd : (out.map (bkOf i)).Nodup := hmaplt.imp ne_of_lt
  have hmaple : List.Sorted (fun x1 x2 : ℤ => x1 ≤ x2) (out.map (bkOf i)) :=
    hmaplt.imp le_of_lt
  have hpt : ∀ x ∈ out,
      (((out.filter (fun s => bkOf i s = bkOf i x)).getLast?).map
        (fun s => PriceSample.mk (.num (bkOf i x : ℚ)) s.price)) = some x := by
    intro x hx
    rw [show (fun s => decide (bkOf i s = bkOf i x)) =
        (fun s : PriceSample => decide (bkOf i s = bkOf i x)) from rfl]
    rw [filter_bk_eq_singleton i out hbkne x hx]
    simp only [List.getLast?_singleton, Option.map_some]
    rcases hal x hx with ⟨m, hm⟩
    have hbk : bkOf i x = m * i := bkOf_aligned i hi m x hm
    cases x with
    | mk ts p =>
      simp only at hm hbk ⊢
      rw [hbk, ← hm]
      rfl
  unfold resampleBk
  rw [List.dedup_eq_self.mpr hmapnd, hmaple.insertionSort_eq, List.filterMap_map]
  exact Eq.trans (List.filterMap_congr (fun x hx => hpt x hx)) (List.filterMap_some out)

theorem resample_twice (samples : List PriceSample) (i : ℤ) (out : List PriceSample)
    (hi : i ≠ 0) (h : resample samples i = .ok out) : resample out i = .ok out := by
  obtain ⟨hal, hp⟩ := resample_ok_shape samples i out h
  have hfin : ∀ x ∈ out, x.timestamp.isFinite = true := by
    intro x hx
    rcases hal x hx with ⟨m, hm⟩
    rw [hm]
    rfl
  rw [resample_eq_bk out i hi hfin, resampleBk_shaped_eq i hi out hal hp]


/-! ### Record filtering and field lookup characterizations -/

theorem recordToSample_isSome_iff (item : JVal) :
    (recordToSample item).isSome = true ↔
      ∃ fields, item = .obj fields ∧
        parseTimestampSpec (tsValueOf fields) ≠ none ∧
        priceValueOf fields ≠ .null ∧
        ∃ pv, pyFloat (priceValueOf fields) = .ok pv := by
  cases item
  case obj fields =>
    simp only [recordToSample, JVal.obj.injEq]
    cases hts : parseTimestampSpec (tsValueOf fields) with
    | none => simp [hts]
    | some t =>
      cases hpv : priceValueOf fields with
      | null => simp [hpv]
      | bool b =>
        cases hpf : pyFloat (JVal.bool b) <;> simp [hpv, hpf, hts]
      | int n =>
        cases hpf : pyFloat (JVal.int n) <;> simp [hpv, hpf, hts]
      | num x =>
        cases hpf : pyFloat (JVal.num x) <;> simp [hpv, hpf, hts]
      | str s =>
        cases hpf : pyFloat (JVal.str s) <;> simp [hpv, hpf, hts]
      | list xs =>
        cases hpf : pyFloat (JVal.list xs) <;> simp [hpv, hpf, hts]
      | obj fs =>
        cases hpf : pyFloat (JVal.obj fs) <;> simp [hpv, hpf, hts]
  all_goals simp [recordToSample]

theorem tsValueOf_eq_firstTruthyOrLast (fields : List (String × JVal)) :
    tsValueOf fields = firstTruthyOrLast fields tsKeys := rfl

theorem priceValueOf_eq_firstTruthyOrLast (fields : List (String × JVal)) :
    priceValueOf fields = firstTruthyOrLast fields priceKeys := rfl


/-! ### Claim theorems -/

/-- C1: for every time-sorted sample list and positive integer interval,
`resample` produces exactly one `PriceSample` per non-empty bucket, where
the bucket key is `floor(timestamp / interval) * interval`, the output
timestamp is the bucket start, the price is that of the last input sample
in the bucket, and the output is ascending by bucket key — i.e. `resample`
returns exactly `resampleSpec` (stated for finite timestamps, on which the
bucket computation is defined). -/
theorem c1_resample_bucketing (samples : List PriceSample) (i : ℤ)
    (hi : 0 < i) (hfin : ∀ s ∈ samples, s.timestamp.isFinite = true)
    (hsorted : tsSorted samples) :
    resample samples i = .ok (resampleSpec samples i) := by
  rw [resample_eq_bk samples i (ne_of_gt hi) hfin,
    resampleBk_eq_resampleSpec samples i hi]

/-- C1 witness: the repository's own resampling test case (`t = 0, 5, 11`
with prices `0.1, 0.2, 0.3` at interval 10). -/
theorem c1_witness :
    ((0 : ℤ) < 10 ∧ (∀ s ∈ resampleExample, s.timestamp.isFinite = true) ∧
        tsSorted resampleExample) ∧
      resample resampleExample 10 = .ok (resampleSpec resampleExample 10) ∧
      resample resampleExample 10 =
        .ok [⟨.num 0, .num (mkRat 2 10)⟩, ⟨.num 10, .num (mkRat 3 10)⟩] :=
  ⟨⟨by decide, by decide, by decide⟩,
   c1_resample_bucketing resampleExample 10 (by decide) (by decide) (by decide),
   by decide⟩

/-- C2 counterexample: the string `"nan"` parses to a NaN timestamp, so this
payload's extraction result is not sorted ascending by timestamp (NaN is
ordered below neither 7 nor 20), refuting the sortedness conjunct of the
claim for arbitrary payloads. -/
theorem c2_counterexample :
    extract_samples nanPayloadC2 =
      .ok [⟨.nan, .num (mkRat 1 2)⟩, ⟨.num 7, .num (mkRat 1 2)⟩, ⟨.num 20, .num (mkRat 1 2)⟩] ∧
    ¬ tsSorted [(⟨.nan, .num (mkRat 1 2)⟩ : PriceSample), ⟨.num 7, .num (mkRat 1 2)⟩,
      ⟨.num 20, .num (mkRat 1 2)⟩] :=
  ⟨by decide, by decide⟩

/-- C2 (amended): for every raw history payload whose data is a list and
which carries no integer too large for a double in a probed timestamp or
price position (on such integers `float()` raises an uncaught
`OverflowError`), `extract_samples` returns exactly the surviving records —
a record survives iff it is a mapping, its resolved timestamp parses, a
price field is found and the price converts to float — stably in input
order for equal timestamps, with the output sorted ascending by timestamp
PROVIDED no surviving timestamp is NaN (a NaN timestamp, reachable via a
`"nan"` string, breaks the sortedness); the spec's concrete example
evaluates as stated. -/
theorem c2_extract_characterization (payload : JVal) (data : List JVal)
    (hdata : dataOf payload = .list data)
    (hovf : payloadNoOverflow payload = true) :
    extract_samples payload = .ok (extractPure payload) ∧
    List.Perm (extractPure payload) (data.filterMap recordToSample) ∧
    (∀ item : JVal, ((recordToSample item).isSome = true ↔
      ∃ fields, item = .obj fields ∧
        parseTimestampSpec (tsValueOf fields) ≠ none ∧
        priceValueOf fields ≠ .null ∧
        ∃ pv, pyFloat (priceValueOf fields) = .ok pv)) ∧
    ((∀ s ∈ extractPure payload, s.timestamp.isNan = false) → tsSorted (extractPure payload)) ∧
    (∀ t0 : PFloat, (extractPure payload).filter (fun s => decide (s.timestamp = t0)) =
      (data.filterMap recordToSample).filter (fun s => decide (s.timestamp = t0))) ∧
    extract_samples examplePayload =
      .ok [⟨.num 5, .num (mkRat 3 5)⟩, ⟨.num 10, .num (mkRat 2 5)⟩] := by
  have hpure : extractPure payload = sortSamples (data.filterMap recordToSample) := by
    unfold extractPure
    rw [hdata]
  refine ⟨extract_samples_eq payload hovf, ?_, recordToSample_isSome_iff, ?_, ?_, by decide⟩
  · rw [hpure]
    exact sortSamples_perm _
  · intro hnonan
    rw [hpure]
    refine (pairwise_sortSamples _ ?_).chain'
    intro s hs
    refine hnonan s ?_
    rw [hpure]
    exact (sortSamples_perm _).mem_iff.mpr hs
  · intro t0
    rw [hpure]
    exact filter_sortSamples t0 _

/-- C2 witness: the characterization applied to the spec's example payload. -/
theorem c2_witness :
    (dataOf examplePayload = .list exampleData ∧
        payloadNoOverflow examplePayload = true) ∧
      extract_samples examplePayload = .ok (extractPure examplePayload) :=
  ⟨⟨rfl, by decide⟩,
   (c2_extract_characterization examplePayload exampleData rfl (by decide)).1⟩

/-- C3 counterexample: in the record
`{"timestamp": 0, "time": 5, "price": 1}` the first present candidate key is
`timestamp` with value 0, and 0 parses to timestamp 0.0, yet the extracted
sample carries timestamp 5.0 — the `or`-chain skipped the falsy 0 instead of
letting the first present key win. -/
theorem c3_counterexample :
    firstPresentVal fieldsC3 tsKeys = some (.num (.num 0)) ∧
    parse_timestamp (.num (.num 0)) = .ok (some (.num 0)) ∧
    extract_samples (.list [.obj fieldsC3]) = .ok [⟨.num 5, .num 1⟩] ∧
    (PriceSample.mk (.num 5) (.num 1)).timestamp ≠ .num 0 :=
  ⟨rfl, by decide, by decide, by decide⟩

/-- C3 (amended): the timestamp lookup probes `timestamp`, `time`,
`createdAt`, `blockTimestamp` in that order, and the first key whose value
is TRUTHY wins; a present-but-falsy value (such as the number 0) is skipped,
and when no candidate is truthy the lookup result of the final key
`blockTimestamp` (possibly `null` or falsy) is what reaches the parser. -/
theorem c3_timestamp_lookup :
    (∀ fields : List (String × JVal), tsValueOf fields = firstTruthyOrLast fields tsKeys) ∧
    tsValueOf fieldsC3 = .num (.num 5) ∧
    tsValueOf [("timestamp", .num (.num 3)), ("time", .num (.num 5))] = .num (.num 3) ∧
    tsValueOf [("blockTimestamp", .num (.num 0))] = .num (.num 0) ∧
    parse_timestamp (tsValueOf [("blockTimestamp", .num (.num 0))]) = .ok (some (.num 0)) :=
  ⟨tsValueOf_eq_firstTruthyOrLast, rfl, rfl, rfl, by decide⟩

set_option exponentiation.threshold 1100 in
/-- C4 counterexample: the integer `2 ^ 1024` is numeric and not NaN, and
the spec-worded parser returns it verbatim, yet `parse_timestamp` raises
`OverflowError` — `float(value)` overflows inside the `isinstance` guard —
so the claimed behavior is false of the program on such input. -/
theorem c4_counterexample :
    parse_timestamp (.int ((2 ^ 1024 : ℕ) : ℤ)) = .error .overflowError ∧
    parseTimestampSpec (.int ((2 ^ 1024 : ℕ) : ℤ)) =
      some (.num ((((2 ^ 1024 : ℕ) : ℤ)) : ℚ)) ∧
    parse_timestamp (.int ((2 ^ 1024 : ℕ) : ℤ)) ≠
      .ok (parseTimestampSpec (.int ((2 ^ 1024 : ℕ) : ℤ))) := by
  have hI : intOverflows ((2 ^ 1024 : ℕ) : ℤ) = true := by decide
  refine ⟨parse_timestamp_int_overflow hI, rfl, ?_⟩
  rw [parse_timestamp_int_overflow hI]
  simp

set_option exponentiation.threshold 1100 in
/-- C4 (amended): `parse_timestamp` returns no value for absent input,
numeric non-NaN input verbatim, directly parsed numeric strings, else the
UTC epoch of the first matching of the three datetime patterns, else no
value — EXCEPT on a Python `int` of magnitude at least `2 ^ 1024 - 2 ^ 970`,
where the `float(value)` call inside the `isinstance` guard raises an
uncaught `OverflowError`; away from that case it equals `parseTimestampSpec`
and never raises, and concrete instances cover each branch (including the
fractional-second and space-separated formats and a Feb 29 leap-day
check). -/
theorem c4_parse_timestamp_spec :
    (∀ v : JVal, intOk v = true → parse_timestamp v = .ok (parseTimestampSpec v)) ∧
    (∀ n : ℤ, intOverflows n = true →
      parse_timestamp (.int n) = .error .overflowError) ∧
    parse_timestamp .null = .ok none ∧
    parse_timestamp (.int 10) = .ok (some (.num 10)) ∧
    parse_timestamp (.num (.num (mkRat 247 2))) = .ok (some (.num (mkRat 247 2))) ∧
    parse_timestamp (.num .nan) = .ok none ∧
    parse_timestamp (.str "123.5") = .ok (some (.num (mkRat 247 2))) ∧
    parse_timestamp (.str "2024-01-02T03:04:05.250Z") =
      .ok (some (.num (mkRat 6816658581 4))) ∧
    parse_timestamp (.str "2024-01-02T03:04:05Z") = .ok (some (.num 1704164645)) ∧
    parse_timestamp (.str "2024-01-02 03:04:05") = .ok (some (.num 1704164645)) ∧
    parse_timestamp (.str "2024-02-29 00:00:00") = .ok (some (.num 1709164800)) ∧
    parse_timestamp (.str "2023-02-29 00:00:00") = .ok none ∧
    parse_timestamp (.str "not a date") = .ok none :=
  ⟨fun v hv => parse_timestamp_eq_spec v hv,
   fun n hn => parse_timestamp_int_overflow hn,
   rfl, by decide, by decide, rfl, by decide, by decide, by decide,
   by decide, by decide, by decide, by decide⟩

set_option exponentiation.threshold 1100 in
/-- C4 witness: the spec agreement at a plain numeric string, and the
overflow exception at a concrete overlarge integer. -/
theorem c4_witness :
    (intOk (JVal.str "123.5") = true ∧
        parse_timestamp (.str "123.5") = .ok (parseTimestampSpec (.str "123.5"))) ∧
      (intOverflows ((2 ^ 1024 + 7 : ℕ) : ℤ) = true ∧
        parse_timestamp (.int ((2 ^ 1024 + 7 : ℕ) : ℤ)) = .error .overflowError) :=
  ⟨⟨by decide, c4_parse_timestamp_spec.1 (.str "123.5") (by decide)⟩,
   ⟨by decide, c4_parse_timestamp_spec.2.1 ((2 ^ 1024 + 7 : ℕ) : ℤ) (by decide)⟩⟩

/-- C5: resampling is idempotent — resampling a successful resample result
again with the same positive interval returns it unchanged. -/
theorem c5_resample_idempotent (samples : List PriceSample) (i : ℤ)
    (out : List PriceSample) (hi : 0 < i) (h : resample samples i = .ok out) :
    resample out i = .ok out :=
  resample_twice samples i out (ne_of_gt hi) h

/-- C5 witness: idempotence at the repository's test input. -/
theorem c5_witness :
    ((0 : ℤ) < 10 ∧
        resample resampleExample 10 = .ok [⟨.num 0, .num (mkRat 2 10)⟩, ⟨.num 10, .num (mkRat 3 10)⟩]) ∧
      resample [(⟨.num 0, .num (mkRat 2 10)⟩ : PriceSample), ⟨.num 10, .num (mkRat 3 10)⟩] 10 =
        .ok [⟨.num 0, .num (mkRat 2 10)⟩, ⟨.num 10, .num (mkRat 3 10)⟩] :=
  ⟨⟨by decide, by decide⟩,
   c5_resample_idempotent resampleExample 10 _ (by decide) (by decide)⟩

/-- C6 counterexample: a payload with a `"nan"` timestamp string produces an
extraction result whose timestamps are NOT non-decreasing (NaN compares
below nothing), refuting the invariant for arbitrary pipeline output. -/
theorem c6_counterexample :
    extract_samples nanPayloadC6 =
      .ok [⟨.nan, .num 1⟩, ⟨.num 5, .num 1⟩, ⟨.num 10, .num 1⟩] ∧
    ¬ tsSorted [(⟨.nan, .num 1⟩ : PriceSample), ⟨.num 5, .num 1⟩, ⟨.num 10, .num 1⟩] :=
  ⟨by decide, by decide⟩

/-- C6 (amended): every `extract_samples` result whose timestamps are free
of NaN has non-decreasing timestamps, and every successful `resample` result
has strictly increasing timestamps that are integer multiples of the
interval. -/
theorem c6_pipeline_invariants :
    (∀ (payload : JVal) (out : List PriceSample), extract_samples payload = .ok out →
      (∀ s ∈ out, s.timestamp.isNan = false) → tsSorted out) ∧
    (∀ (samples : List PriceSample) (i : ℤ) (out : List PriceSample), 0 < i →
      resample samples i = .ok out →
      tsStrictSorted out ∧ ∀ x ∈ out, ∃ m : ℤ, x.timestamp = .num ((m * i : ℤ) : ℚ)) := by
  constructor
  · intro payload out hok hnonan
    have hout : out = extractPure payload := extract_samples_ok payload out hok
    subst hout
    unfold extractPure at hnonan ⊢
    cases hdata : dataOf payload with
    | list data =>
      rw [hdata] at hnonan
      refine (pairwise_sortSamples _ ?_).chain'
      intro s hs
      exact hnonan s ((sortSamples_perm _).mem_iff.mpr hs)
    | _ => exact List.chain'_nil
  · intro samples i out _ hok
    obtain ⟨hal, hp⟩ := resample_ok_shape samples i out hok
    exact ⟨hp.chain', hal⟩

/-- C6 witness: both invariants checked at concrete pipeline runs. -/
theorem c6_witness :
    (extract_samples examplePayload = .ok [⟨.num 5, .num (mkRat 3 5)⟩, ⟨.num 10, .num (mkRat 2 5)⟩] ∧
        (0 : ℤ) < 10 ∧
        resample resampleExample 10 = .ok [⟨.num 0, .num (mkRat 2 10)⟩, ⟨.num 10, .num (mkRat 3 10)⟩]) ∧
      tsSorted [(⟨.num 5, .num (mkRat 3 5)⟩ : PriceSample), ⟨.num 10, .num (mkRat 2 5)⟩] ∧
      tsStrictSorted [(⟨.num 0, .num (mkRat 2 10)⟩ : PriceSample), ⟨.num 10, .num (mkRat 3 10)⟩] :=
  ⟨⟨by decide, by decide, by decide⟩,
   c6_pipeline_invariants.1 examplePayload _ (by decide) (by decide),
   (c6_pipeline_invariants.2 resampleExample 10 _ (by decide) (by decide)).1⟩

/-- C7 counterexample: `write_csv` has no emptiness guard — called on an
empty sequence it still creates the file and writes the header row, so the
CSV writer does NOT perform "no file write" on empty input. -/
theorem c7_counterexample :
    write_csv [] = .ok (.wrote [CsvRow.header]) ∧
      (Except.ok (WriteOutcome.wrote [CsvRow.header]) :
          Except PyErr (WriteOutcome (List CsvRow))) ≠ .ok .noWrite :=
  ⟨by decide, by decide⟩

/-- C7 (amended): extraction of a payload whose data is not a list (or an
empty list) yields an empty sequence, resampling an empty sequence yields an
empty sequence for every interval, and the SVG and HTML writers perform no
file write on an empty sequence — but the CSV writer always writes the
header row, even for an empty sequence. -/
theorem c7_empty_input_laws :
    (∀ payload : JVal, (∀ l, dataOf payload ≠ .list l) → extract_samples payload = .ok []) ∧
    extract_samples (.list []) = .ok [] ∧
    (∀ i : ℤ, resample [] i = .ok []) ∧
    (∀ t, write_svg [] t = .noWrite) ∧
    (∀ t, write_html [] t = .noWrite) ∧
    write_csv [] = .ok (.wrote [CsvRow.header]) := by
  refine ⟨?_, by decide, fun i => rfl, fun t => rfl, fun t => rfl, by decide⟩
  intro payload hnl
  unfold extract_samples
  cases hdata : dataOf payload with
  | list l => exact absurd hdata (hnl l)
  | _ => rfl

/-- C7 witness: the non-list law applied to a bare number payload. -/
theorem c7_witness :
    (∀ l, dataOf (JVal.num (.num 3)) ≠ .list l) ∧
      extract_samples (JVal.num (.num 3)) = .ok [] :=
  ⟨fun l h => by simp [dataOf] at h,
   c7_empty_input_laws.1 (JVal.num (.num 3)) (fun l h => by simp [dataOf] at h)⟩

/-- C8 counterexample: the record `{"timestamp": 1, "value": 0}` has 0 as
its only present price candidate, yet it is NOT dropped — Python's `or`
returns its last operand even when falsy, so a falsy price under the final
key `value` is kept (as 0.0). -/
theorem c8_counterexample :
    extract_samples (.list [.obj [("timestamp", .num (.num 1)), ("value", .num (.num 0))]]) =
      .ok [⟨.num 1, .num 0⟩] ∧
    ([(⟨.num 1, .num 0⟩ : PriceSample)] : List PriceSample) ≠ [] :=
  ⟨by decide, by decide⟩

/-- C8 (amended): the price lookup over `price`, `probability`, `p`, `value`
skips falsy-but-present values of the first three keys, but a falsy value
under the FINAL key `value` is returned by the `or`-chain; hence a record
whose only price candidate is 0 is dropped when the candidate is `price`,
`probability` or `p`, yet kept with price 0.0 when it is `value` (an empty
string under `value` is still dropped, by failing float conversion). -/
theorem c8_price_lookup :
    (∀ fields : List (String × JVal),
      priceValueOf fields = firstTruthyOrLast fields priceKeys) ∧
    extract_samples (.list [.obj [("timestamp", .num (.num 1)), ("price", .num (.num 0))]]) =
      .ok [] ∧
    extract_samples (.list [.obj [("timestamp", .num (.num 1)),
      ("probability", .num (.num 0))]]) = .ok [] ∧
    extract_samples (.list [.obj [("timestamp", .num (.num 1)), ("p", .num (.num 0))]]) =
      .ok [] ∧
    extract_samples (.list [.obj [("timestamp", .num (.num 1)), ("value", .num (.num 0))]]) =
      .ok [⟨.num 1, .num 0⟩] ∧
    extract_samples (.list [.obj [("timestamp", .num (.num 1)), ("value", .str "")]]) =
      .ok [] :=
  ⟨priceValueOf_eq_firstTruthyOrLast, by decide, by decide, by decide, by decide, by decide⟩

set_option exponentiation.threshold 1100 in
/-- C9 counterexample: `float()` on an integer too large for a double
raises `OverflowError`, which `except (TypeError, ValueError)` does not
catch — `parse_timestamp` raises on such a timestamp value and
`extract_samples` raises on a record carrying such a price, so neither
function is exception-free on arbitrary input. -/
theorem c9_counterexample :
    parse_timestamp (.int ((2 ^ 1024 : ℕ) : ℤ)) = .error PyErr.overflowError ∧
    extract_samples (.list [.obj [("timestamp", .num (.num 1)),
      ("price", .int ((2 ^ 1024 : ℕ) : ℤ))]]) = .error PyErr.overflowError := by
  refine ⟨parse_timestamp_int_overflow (by decide), ?_⟩
  decide

/-- C9 (amended): parsing failure is the "no value" outcome and malformed
records are silently excluded — no exception escapes `parse_timestamp` for
any input that is not an overflowing integer, and none escapes
`extract_samples` for any payload with no overflowing integer in a probed
timestamp or price position; on an overflowing Python `int` (magnitude at
least `2 ^ 1024 - 2 ^ 970`) `float()` raises `OverflowError`, uncaught by
`except (TypeError, ValueError)`. -/
theorem c9_no_exceptions :
    (∀ v : JVal, intOk v = true → ∃ r, parse_timestamp v = .ok r) ∧
    (∀ payload : JVal, payloadNoOverflow payload = true →
      ∃ l, extract_samples payload = .ok l) :=
  ⟨fun v hv => ⟨parseTimestampSpec v, parse_timestamp_eq_spec v hv⟩,
   fun payload hp => ⟨extractPure payload, extract_samples_eq payload hp⟩⟩

/-- C9 witness: exception-freedom at a nonsense string and at the spec's
example payload. -/
theorem c9_witness :
    (intOk (JVal.str "nonsense") = true ∧
        ∃ r, parse_timestamp (.str "nonsense") = .ok r) ∧
      (payloadNoOverflow examplePayload = true ∧
        ∃ l, extract_samples examplePayload = .ok l) :=
  ⟨⟨by decide, c9_no_exceptions.1 (.str "nonsense") (by decide)⟩,
   ⟨by decide, c9_no_exceptions.2 examplePayload (by decide)⟩⟩

/-- C10: the strings `"nan"` and `"inf"` pass Python's `float()` and are
returned verbatim by `parse_timestamp` — the not-NaN guard applies only to
already-numeric input, which yields no value — so a NaN timestamp enters the
extracted sequence and the result is no longer sorted by timestamp. -/
theorem c10_nan_string_timestamps :
    parse_timestamp (.str "nan") = .ok (some .nan) ∧
    parse_timestamp (.str "inf") = .ok (some .inf) ∧
    parse_timestamp (.num .nan) = .ok none ∧
    extract_samples nanPayloadC10 =
      .ok [⟨.nan, .num 1⟩, ⟨.num 1, .num 1⟩, ⟨.num 3, .num 1⟩] ∧
    ¬ tsSorted [(⟨.nan, .num 1⟩ : PriceSample), ⟨.num 1, .num 1⟩, ⟨.num 3, .num 1⟩] :=
  ⟨by decide, by decide, rfl, by decide, by decide⟩

end Polymarket
